import Mathlib

/-!
Verification of the timeline export path of the `rrg` agent.

The development shallowly embeds `crates/rrg/src/action/deprecated/timeline.rs`:
the lossy conversion of filesystem entries to wire records (`from_lossy`), the
batch codec contract (`encode` / `decode`, modelled from the specification of
the `gzchunked` module), the SHA-256 content addressing of batches, and the
`handle` pipeline that walks a directory, encodes entries into compressed
batches, hands each batch to the blob sink and emits one receipt per batch.

Bytes are modelled as natural numbers, machine integers as `Nat`/`Int` with
explicit range checks where the source performs fallible conversions.
-/

/-- Big-endian serialization of a 64-bit length to eight bytes, as written by
the batch framing layer. -/
def u64be (n : Nat) : List Nat :=
  [n / 72057594037927936 % 256, n / 281474976710656 % 256,
   n / 1099511627776 % 256, n / 4294967296 % 256,
   n / 16777216 % 256, n / 65536 % 256, n / 256 % 256, n % 256]

/-- Big-endian reading of a byte list as an unsigned integer. -/
def readU64be (b : List Nat) : Nat :=
  b.foldl (fun a x => a * 256 + x) 0

/-- Big-endian serialization of a 32-bit word to four bytes. -/
def u32be (n : Nat) : List Nat :=
  [n / 16777216 % 256, n / 65536 % 256, n / 256 % 256, n % 256]

/-- Metadata of a filesystem entry as obtained from the walker's stat call:
`std::fs::Metadata` together with the `std::os::unix::fs::MetadataExt`
accessors used by the timeline action.  Timestamps (`accessed`, `modified`,
`created`) are `SystemTime` values modelled as signed integer nanoseconds
relative to the Unix epoch; `none` models the platform failing to provide the
timestamp (the `Err` of the corresponding `io::Result`).  `mode`, `uid` and
`gid` are `u32` values, `ino` and `dev` are `u64` values, `ctime` holds the
change time in whole seconds (`i64`) and `ctime_nsec` its sub-second
nanosecond component (`i64`). -/
structure Metadata where
  len : Nat
  accessed : Option Int
  modified : Option Int
  created : Option Int
  mode : Nat
  ino : Nat
  dev : Nat
  uid : Nat
  gid : Nat
  ctime : Int
  ctime_nsec : Int
deriving DecidableEq, Repr

/-- One filesystem object discovered by the walker (`crate::fs::Entry`):
a byte-exact path and the stat metadata. -/
structure Entry where
  path : List Nat
  metadata : Metadata
deriving DecidableEq, Repr

/-- The wire record `rrg_proto::v2::get_filesystem_timeline::Entry`: the
canonical serializable projection of an `Entry`.  Every field that the source
sets conditionally is an `Option`; `none` models the protobuf field left
unset. -/
structure WireRecord where
  path : List Nat
  size : Nat
  atime_ns : Option Int
  mtime_ns : Option Int
  btime_ns : Option Int
  mode : Option Int
  ino : Option Nat
  dev : Option Int
  uid : Option Int
  gid : Option Int
  ctime_ns : Option Int
deriving DecidableEq, Repr

/-- Semantics of `i64::try_from` on an unsigned machine value: succeeds
exactly when the value fits below `2^63`. -/
def i64TryFromNat (n : Nat) : Option Int :=
  if n < 9223372036854775808 then some (Int.ofNat n) else none

/-- Modelled from the spec: `rrg_proto::nanos` converts a `SystemTime` to
unsigned integer nanoseconds since the Unix epoch, failing soft when the time
is unrepresentable (before the epoch or beyond the `u64` range). -/
def nanosU64 (t : Int) : Option Nat :=
  if 0 ≤ t ∧ t < 18446744073709551616 then some t.toNat else none

/-- The local `nanos` helper of `from_lossy`:
`i64::try_from(rrg_proto::nanos(time).ok()?).ok()`. -/
def nanos (t : Int) : Option Int :=
  (nanosU64 t).bind i64TryFromNat

/-- The `FromLossy` conversion of a walker entry into a wire record
(`timeline.rs` lines 29–73, with the `target_family = "unix"` block).  Each
timestamp field is set only when the accessor succeeded and the `nanos`
conversion succeeded; `mode` is widened infallibly from `u32`, `ino` is copied
as `u64`, and `dev`/`uid`/`gid` go through `i64::try_from`.  `ctime_ns` is set
unconditionally from `ctime_nsec()`. -/
def from_lossy (e : Entry) : WireRecord :=
  { path := e.path
    size := e.metadata.len
    atime_ns := e.metadata.accessed.bind nanos
    mtime_ns := e.metadata.modified.bind nanos
    btime_ns := e.metadata.created.bind nanos
    mode := some (Int.ofNat e.metadata.mode)
    ino := some e.metadata.ino
    dev := i64TryFromNat e.metadata.dev
    uid := i64TryFromNat e.metadata.uid
    gid := i64TryFromNat e.metadata.gid
    ctime_ns := some e.metadata.ctime_nsec }

/-! ## SHA-256 (FIPS 180-4), as used through `sha2::Sha256::digest` -/

/-- Addition modulo `2^32`. -/
def add32 (a b : Nat) : Nat := (a + b) % 4294967296

/-- Right rotation of a 32-bit word by `k` positions. -/
def rotr32 (k x : Nat) : Nat :=
  ((x >>> k) ||| ((x <<< (32 - k)) % 4294967296)) % 4294967296

/-- The SHA-256 `Ch` function. -/
def chV (x y z : Nat) : Nat := (x &&& y) ^^^ ((x ^^^ 4294967295) &&& z)

/-- The SHA-256 `Maj` function. -/
def majV (x y z : Nat) : Nat := (x &&& y) ^^^ (x &&& z) ^^^ (y &&& z)

/-- The SHA-256 small sigma-0 schedule function. -/
def smallSigma0 (x : Nat) : Nat := rotr32 7 x ^^^ rotr32 18 x ^^^ (x >>> 3)

/-- The SHA-256 small sigma-1 schedule function. -/
def smallSigma1 (x : Nat) : Nat := rotr32 17 x ^^^ rotr32 19 x ^^^ (x >>> 10)

/-- The SHA-256 big Sigma-0 round function. -/
def bigSigma0 (x : Nat) : Nat := rotr32 2 x ^^^ rotr32 13 x ^^^ rotr32 22 x

/-- The SHA-256 big Sigma-1 round function. -/
def bigSigma1 (x : Nat) : Nat := rotr32 6 x ^^^ rotr32 11 x ^^^ rotr32 25 x

/-- The 64 SHA-256 round constants. -/
def sha256K : List Nat :=
  [1116352408, 1899447441, 3049323471, 3921009573, 961987163,
   1508970993, 2453635748, 2870763221, 3624381080, 310598401,
   607225278, 1426881987, 1925078388, 2162078206, 2614888103,
   3248222580, 3835390401, 4022224774, 264347078, 604807628,
   770255983, 1249150122, 1555081692, 1996064986, 2554220882,
   2821834349, 2952996808, 3210313671, 3336571891, 3584528711,
   113926993, 338241895, 666307205, 773529912, 1294757372,
   1396182291, 1695183700, 1986661051, 2177026350, 2456956037,
   2730485921, 2820302411, 3259730800, 3345764771, 3516065817,
   3600352804, 4094571909, 275423344, 430227734, 506948616,
   659060556, 883997877, 958139571, 1322822218, 1537002063,
   1747873779, 1955562222, 2024104815, 2227730452, 2361852424,
   2428436474, 2756734187, 3204031479, 3329325298]

/-- Grouping of bytes into big-endian 32-bit words. -/
def bytesToWords : List Nat → List Nat
  | b0 :: b1 :: b2 :: b3 :: rest =>
      (((b0 * 256 + b1) * 256 + b2) * 256 + b3) :: bytesToWords rest
  | _ => []

/-- Extension of the 16 message words of a chunk to the 64 schedule words,
driven by the number of words still to generate. -/
def extendWords : List Nat → Nat → List Nat
  | ws, 0 => ws
  | ws, k + 1 =>
      let n := ws.length
      let w := add32 (add32 (ws.getD (n - 16) 0) (smallSigma0 (ws.getD (n - 15) 0)))
                     (add32 (ws.getD (n - 7) 0) (smallSigma1 (ws.getD (n - 2) 0)))
      extendWords (ws ++ [w]) k

/-- The eight working registers of the SHA-256 compression function. -/
structure Regs where
  a : Nat
  b : Nat
  c : Nat
  d : Nat
  e : Nat
  f : Nat
  g : Nat
  h : Nat
deriving DecidableEq, Repr

/-- One SHA-256 round, consuming a pair of a schedule word and a round
constant. -/
def roundStep (r : Regs) (kw : Nat × Nat) : Regs :=
  let t1 := add32 r.h (add32 (bigSigma1 r.e)
              (add32 (chV r.e r.f r.g) (add32 kw.1 kw.2)))
  let t2 := add32 (bigSigma0 r.a) (majV r.a r.b r.c)
  ⟨add32 t1 t2, r.a, r.b, r.c, add32 r.d t1, r.e, r.f, r.g⟩

/-- Processing of one 64-byte chunk: 64 rounds followed by the feed-forward
addition into the running hash state. -/
def processChunk (hs : Regs) (chunk : List Nat) : Regs :=
  let ws := extendWords (bytesToWords chunk) 48
  let r := (ws.zip sha256K).foldl roundStep hs
  ⟨add32 hs.a r.a, add32 hs.b r.b, add32 hs.c r.c, add32 hs.d r.d,
   add32 hs.e r.e, add32 hs.f r.f, add32 hs.g r.g, add32 hs.h r.h⟩

/-- The SHA-256 initial hash value. -/
def initRegs : Regs :=
  ⟨1779033703, 3144134277, 1013904242, 2773480762,
   1359893119, 2600822924, 528734635, 1541459225⟩

/-- SHA-256 message padding: a `0x80` byte, zeros to 56 mod 64, and the
big-endian 64-bit bit length. -/
def padMsg (msg : List Nat) : List Nat :=
  msg ++ 0x80 :: List.replicate ((119 - msg.length % 64) % 64) 0
      ++ u64be (8 * msg.length)

/-- Splitting of a byte list into 64-byte chunks, driven by a fuel argument
so that the recursion is structural; one unit of fuel is spent per chunk and
each chunk consumes at least one byte, so `l.length` fuel always suffices. -/
def chunks64F : Nat → List Nat → List (List Nat)
  | _, [] => []
  | 0, _ :: _ => []
  | fuel + 1, b :: bs => (b :: bs).take 64 :: chunks64F fuel ((b :: bs).drop 64)

/-- Splitting of a byte list into 64-byte chunks. -/
def chunks64 (l : List Nat) : List (List Nat) :=
  chunks64F l.length l

/-- Serialization of the final hash state to the 32-byte digest. -/
def regsBytes (r : Regs) : List Nat :=
  u32be r.a ++ u32be r.b ++ u32be r.c ++ u32be r.d ++
  u32be r.e ++ u32be r.f ++ u32be r.g ++ u32be r.h

/-- SHA-256 of a byte sequence, producing the 32-byte digest:
`sha2::Sha256::digest`. -/
def sha256 (msg : List Nat) : List Nat :=
  regsBytes ((chunks64 (padMsg msg)).foldl processChunk initRegs)

/-! ## Batch codec

Modelled from the spec: the `gzchunked` module is not part of the sampled
sources, so `encode` and `decode` follow the specification of the batch wire
format: `compress(concat(for each record: length_prefixed(serialize(record))))`
with an accumulator flushed once its serialized size meets or exceeds the
size bound, and a final flush of any non-empty remainder.  Record
serialization and whole-buffer compression are performed by external
collaborators (protobuf and gzip), so the codec is parametrized by them. -/

/-- One framed record on the wire: the eight-byte big-endian length of the
serialized record followed by the serialized record itself. -/
def frame (ser : WireRecord → List Nat) (r : WireRecord) : List Nat :=
  u64be (ser r).length ++ ser r

/-- The concatenated framed serialization of a record sequence: the
pre-compression content of one batch. -/
def serStream (ser : WireRecord → List Nat) : List WireRecord → List Nat
  | [] => []
  | r :: rs => frame ser r ++ serStream ser rs

/-- Parsing of the framed records inside one decompressed batch, driven by a
fuel argument so that the recursion is structural; each record consumes at
least eight buffer bytes and one unit of fuel, so `buf.length` fuel always
suffices.  A length header that would read past the end of the buffer is
rejected. -/
def parseRecsF (deser : List Nat → Option WireRecord) :
    Nat → List Nat → Option (List WireRecord)
  | _, [] => some []
  | 0, _ :: _ => none
  | fuel + 1, h0 :: h1 :: h2 :: h3 :: h4 :: h5 :: h6 :: h7 :: rest =>
      let n := readU64be [h0, h1, h2, h3, h4, h5, h6, h7]
      if n ≤ rest.length then
        match deser (rest.take n) with
        | none => none
        | some r => (parseRecsF deser fuel (rest.drop n)).map (fun rs => r :: rs)
      else none
  | _ + 1, _ :: _ => none

/-- Parsing of the framed records inside one decompressed batch. -/
def parseRecs (deser : List Nat → Option WireRecord) (buf : List Nat) :
    Option (List WireRecord) :=
  parseRecsF deser buf.length buf

/-- The encoding loop: records are framed into the accumulator; once the
accumulated serialized size meets or exceeds the bound the accumulator is
compressed and emitted as one batch and reset; at end of input any non-empty
remainder is compressed and emitted as a final batch. -/
def encodeGo (ser : WireRecord → List Nat) (compress : List Nat → List Nat)
    (bound : Nat) : List WireRecord → List Nat → List (List Nat)
  | [], acc => if acc = [] then [] else [compress acc]
  | r :: rs, acc =>
      let acc2 := acc ++ frame ser r
      if bound ≤ acc2.length then compress acc2 :: encodeGo ser compress bound rs []
      else encodeGo ser compress bound rs acc2

/-- Encoding of a record sequence into a sequence of compressed, size-bounded
batches. -/
def encode (ser : WireRecord → List Nat) (compress : List Nat → List Nat)
    (bound : Nat) (rs : List WireRecord) : List (List Nat) :=
  encodeGo ser compress bound rs []

/-- Decoding of a batch sequence back into the record sequence: each batch is
decompressed independently and its framed records parsed; `none` models a
`DecodeError` on some batch. -/
def decode (deser : List Nat → Option WireRecord)
    (decompress : List Nat → List Nat) : List (List Nat) → Option (List WireRecord)
  | [] => some []
  | b :: bs =>
      match parseRecs deser (decompress b), decode deser decompress bs with
      | some rs, some rest => some (rs ++ rest)
      | _, _ => none

/-! ## Export pipeline (`handle`, timeline.rs lines 77–108) -/

/-- The action result `Item`: the SHA-256 digest of one timeline batch sent
to the blob sink — the `ExportReceipt`. -/
structure Item where
  blob_sha256 : List Nat
deriving DecidableEq, Repr

/-- The observable effects of a session: the blob payloads handed to the
sink, in order, and the receipts emitted through the reply channel, in
order. -/
structure SessionState where
  sent : List (List Nat)
  replies : List Item
deriving DecidableEq, Repr

/-- The per-entry failure filter of `handle` (lines 85–91): an `Ok` entry is
kept, an `Err` entry is logged and dropped. -/
def keepOk : List (Except String Entry) → List Entry
  | [] => []
  | .ok e :: rest => e :: keepOk rest
  | .error _ :: rest => keepOk rest

/-- The batch loop of `handle` (lines 94–105): for each batch, hand the blob
to the sink and emit one `Item` carrying the SHA-256 of the blob bytes via
the reply channel.  `sendOk n` / `replyOk n` model whether the n-th sink
send / reply call succeeds; a transport failure propagates through `?` and
aborts the loop. -/
def sendLoop (sendOk replyOk : Nat → Bool) :
    List (List Nat) → Nat → SessionState → Except String Unit × SessionState
  | [], _, st => (.ok (), st)
  | b :: bs, n, st =>
      if sendOk n then
        if replyOk n then
          sendLoop sendOk replyOk bs (n + 1)
            ⟨st.sent ++ [b], st.replies ++ [⟨sha256 b⟩]⟩
        else (.error "reply failed", ⟨st.sent ++ [b], st.replies⟩)
      else (.error "send failed", st)

/-- The timeline action handler: walk the root (whose outcome, a root-level
error or the per-entry result sequence, is the `walk` argument), drop failed
entries, convert the rest with `from_lossy`, encode into compressed batches,
and send each batch followed by its receipt.  The returned pair is the
action result together with the observable session effects. -/
def handle (ser : WireRecord → List Nat) (compress : List Nat → List Nat)
    (bound : Nat) (sendOk replyOk : Nat → Bool)
    (walk : Except String (List (Except String Entry))) :
    Except String Unit × SessionState :=
  match walk with
  | .error e => (.error e, ⟨[], []⟩)
  | .ok results =>
      let entries := (keepOk results).map from_lossy
      sendLoop sendOk replyOk (encode ser compress bound entries) 0 ⟨[], []⟩

/-- The batch sequence `handle` produces for a given walk result. -/
def batchesOf (ser : WireRecord → List Nat) (compress : List Nat → List Nat)
    (bound : Nat) (results : List (Except String Entry)) : List (List Nat) :=
  encode ser compress bound ((keepOk results).map from_lossy)


/-! ## Concrete witness instances

A simple executable record serializer and deserializer used to instantiate
the codec parameters in concrete examples, together with sample entries and
records. -/

/-- Zig-zag style encoding of an integer as a natural number. -/
def encZ (z : Int) : Nat :=
  if 0 ≤ z then 2 * z.toNat else 2 * (-z).toNat - 1

/-- Decoding of the zig-zag style integer encoding. -/
def decZ (c : Nat) : Int :=
  if c % 2 = 0 then Int.ofNat (c / 2) else -(Int.ofNat ((c + 1) / 2))

/-- Encoding of an optional integer field. -/
def encOptInt : Option Int → List Nat
  | none => [0]
  | some z => [1, encZ z]

/-- Encoding of an optional natural field. -/
def encOptNat : Option Nat → List Nat
  | none => [0]
  | some n => [1, n]

/-- Decoding of an optional integer field, returning the remaining input. -/
def decOptInt : List Nat → Option (Option Int × List Nat)
  | 0 :: rest => some (none, rest)
  | 1 :: c :: rest => some (some (decZ c), rest)
  | _ => none

/-- Decoding of an optional natural field, returning the remaining input. -/
def decOptNat : List Nat → Option (Option Nat × List Nat)
  | 0 :: rest => some (none, rest)
  | 1 :: n :: rest => some (some n, rest)
  | _ => none

/-- A concrete executable serializer for wire records. -/
def encK (r : WireRecord) : List Nat :=
  r.path.length :: r.path ++ [r.size] ++ encOptInt r.atime_ns
    ++ encOptInt r.mtime_ns ++ encOptInt r.btime_ns ++ encOptInt r.mode
    ++ encOptNat r.ino ++ encOptInt r.dev ++ encOptInt r.uid
    ++ encOptInt r.gid ++ encOptInt r.ctime_ns

/-- The deserializer inverting `encK`. -/
def decK (b : List Nat) : Option WireRecord :=
  match b with
  | plen :: rest =>
      if plen ≤ rest.length then
        match rest.drop plen with
        | size :: rest2 => do
            let (a1, r1) ← decOptInt rest2
            let (m1, r2) ← decOptInt r1
            let (b1, r3) ← decOptInt r2
            let (md, r4) ← decOptInt r3
            let (i1, r5) ← decOptNat r4
            let (d1, r6) ← decOptInt r5
            let (u1, r7) ← decOptInt r6
            let (g1, r8) ← decOptInt r7
            let (c1, r9) ← decOptInt r8
            if r9 = [] then
              some ⟨rest.take plen, size, a1, m1, b1, md, i1, d1, u1, g1, c1⟩
            else none
        | [] => none
      else none
  | [] => none

/-- A sample wire record with a mix of present and absent fields. -/
def wrA : WireRecord :=
  ⟨[104, 105], 9, some 5, none, some 7, some 493, some 42, none,
   some 1000, some 1000, some 123⟩

/-- A second sample wire record, with an empty path and a negative field. -/
def wrB : WireRecord :=
  ⟨[], 0, none, none, none, none, none, none, none, none, some (-3)⟩

/-- A sample walker entry. -/
def entA : Entry :=
  ⟨[97], ⟨9, some 5, none, none, 33188, 7, 2049, 1000, 1000, 1700000000, 123456789⟩⟩

/-- A second sample walker entry. -/
def entB : Entry :=
  ⟨[98], ⟨0, none, some 11, none, 16877, 8, 2049, 1000, 1000, 1700000001, 5⟩⟩

/-- A sample entry whose device number does not fit in a signed 64-bit
integer. -/
def entBig : Entry :=
  ⟨[99], ⟨1, none, none, none, 33188, 9, 9223372036854775808, 1000, 1000, 0, 0⟩⟩

/-- An entry whose change time is 5 seconds and 7 nanoseconds past the Unix
epoch. -/
def entCtime : Entry :=
  ⟨[102], ⟨0, none, none, none, 33188, 1, 0, 0, 0, 5, 7⟩⟩

/-- The digest of any byte sequence is exactly 32 bytes (256 bits). -/
theorem sha256_length (msg : List Nat) : (sha256 msg).length = 32 := by
  simp [sha256, regsBytes, u32be]

/-- Standard test vector: `SHA-256("abc")`. -/
example : sha256 [0x61, 0x62, 0x63] =
    [186, 120, 22, 191, 143, 1, 207, 234, 65, 65,
     64, 222, 93, 174, 34, 35, 176, 3, 97, 163,
     150, 23, 122, 156, 180, 16, 255, 97, 242, 0,
     21, 173] := by decide


/-! ## Codec lemmas -/

/-- Reading back a big-endian 64-bit length header recovers the length. -/
theorem readU64be_u64be (n : Nat) (h : n < 18446744073709551616) :
    readU64be (u64be n) = n := by
  simp only [readU64be, u64be, List.foldl_cons, List.foldl_nil]
  omega

/-- The framed serialization of a record sequence is empty exactly for the
empty sequence. -/
theorem serStream_eq_nil (ser : WireRecord → List Nat) (ps : List WireRecord) :
    serStream ser ps = [] ↔ ps = [] := by
  cases ps with
  | nil => simp [serStream]
  | cons p ps => simp [serStream, frame, u64be]

/-- The framed serialization distributes over list append. -/
theorem serStream_append (ser : WireRecord → List Nat) (a b : List WireRecord) :
    serStream ser (a ++ b) = serStream ser a ++ serStream ser b := by
  induction a with
  | nil => simp [serStream]
  | cons r a ih => simp [serStream, ih]

/-- Parsing one framed record off the front of a buffer peels the record and
continues on the remainder. -/
theorem parseRecsF_frame (deser : List Nat → Option WireRecord)
    (pl rest : List Nat) (r : WireRecord) (g : Nat)
    (hd : deser pl = some r) (hL : pl.length < 18446744073709551616) :
    parseRecsF deser (g + 1) (u64be pl.length ++ pl ++ rest)
      = (parseRecsF deser g rest).map (fun rs => r :: rs) := by
  have hn := readU64be_u64be pl.length hL
  simp only [u64be] at hn
  simp only [u64be, List.cons_append, List.nil_append, parseRecsF, hn]
  simp only [List.append_eq, List.nil_append]
  rw [List.take_left, List.drop_left, hd]
  simp

/-- Parsing the framed serialization of a record sequence, with enough fuel,
recovers the sequence, provided deserialization inverts serialization on its
records and each serialized record fits the 64-bit length header. -/
theorem parseRecsF_serStream (deser : List Nat → Option WireRecord)
    (ser : WireRecord → List Nat) :
    ∀ rs : List WireRecord,
    (∀ r ∈ rs, deser (ser r) = some r ∧ (ser r).length < 18446744073709551616) →
    ∀ fuel : Nat, (serStream ser rs).length ≤ fuel →
    parseRecsF deser fuel (serStream ser rs) = some rs := by
  intro rs
  induction rs with
  | nil =>
    intro _ fuel _
    cases fuel <;> rfl
  | cons r rs ih =>
    intro hrec fuel hfuel
    have hr := hrec r (List.mem_cons_self r rs)
    have hlen : (serStream ser (r :: rs)).length
        = 8 + (ser r).length + (serStream ser rs).length := by
      simp [serStream, frame, u64be]
      omega
    cases fuel with
    | zero => omega
    | succ g =>
      have hstream : serStream ser (r :: rs)
          = u64be (ser r).length ++ ser r ++ serStream ser rs := by
        simp [serStream, frame]
      rw [hstream, parseRecsF_frame deser (ser r) (serStream ser rs) r g hr.1 hr.2]
      rw [ih (fun x hx => hrec x (List.mem_cons_of_mem r hx)) g (by omega)]
      rfl

/-- Parsing the framed serialization of a record sequence recovers the
sequence. -/
theorem parseRecs_serStream (deser : List Nat → Option WireRecord)
    (ser : WireRecord → List Nat) (rs : List WireRecord)
    (hrec : ∀ r ∈ rs, deser (ser r) = some r ∧ (ser r).length < 18446744073709551616) :
    parseRecs deser (serStream ser rs) = some rs :=
  parseRecsF_serStream deser ser rs hrec (serStream ser rs).length le_rfl

/-- Decoding the batches emitted by the encoding loop, started with an
accumulator holding the framed serialization of the already-buffered records
`ps`, recovers the buffered records followed by the remaining input. -/
theorem decode_encodeGo_aux (ser : WireRecord → List Nat)
    (deser : List Nat → Option WireRecord)
    (compress decompress : List Nat → List Nat) (bound : Nat)
    (hcd : ∀ b, decompress (compress b) = b) :
    ∀ rs ps : List WireRecord,
    (∀ r, (r ∈ ps ∨ r ∈ rs) →
      deser (ser r) = some r ∧ (ser r).length < 18446744073709551616) →
    decode deser decompress (encodeGo ser compress bound rs (serStream ser ps))
      = some (ps ++ rs) := by
  intro rs
  induction rs with
  | nil =>
    intro ps hmem
    by_cases hps : ps = []
    · subst hps
      simp [encodeGo, serStream, decode]
    · have hne : ¬ serStream ser ps = [] := fun h => hps ((serStream_eq_nil ser ps).mp h)
      simp only [encodeGo, if_neg hne, decode, hcd]
      rw [parseRecs_serStream deser ser ps (fun r hr => hmem r (Or.inl hr))]
  | cons r rs ih =>
    intro ps hmem
    have hacc2 : serStream ser ps ++ frame ser r = serStream ser (ps ++ [r]) := by
      rw [serStream_append]
      simp [serStream]
    simp only [encodeGo, hacc2]
    by_cases hb : bound ≤ (serStream ser (ps ++ [r])).length
    · rw [if_pos hb]
      have hmem2 : ∀ x ∈ ps ++ [r],
          deser (ser x) = some x ∧ (ser x).length < 18446744073709551616 := by
        intro x hx
        rcases List.mem_append.mp hx with h | h
        · exact hmem x (Or.inl h)
        · exact hmem x (Or.inr (List.mem_cons.mpr (Or.inl (List.mem_singleton.mp h))))
      have hnil : serStream ser ([] : List WireRecord) = [] := rfl
      simp only [decode, hcd]
      rw [parseRecs_serStream deser ser (ps ++ [r]) hmem2]
      rw [← hnil, ih [] (fun x hx => by
        rcases hx with h | h
        · exact absurd h (List.not_mem_nil x)
        · exact hmem x (Or.inr (List.mem_cons_of_mem r h)))]
      simp
    · rw [if_neg hb]
      rw [ih (ps ++ [r]) (fun x hx => by
        rcases hx with h | h
        · rcases List.mem_append.mp h with h2 | h2
          · exact hmem x (Or.inl h2)
          · exact hmem x (Or.inr (List.mem_cons.mpr (Or.inl (List.mem_singleton.mp h2))))
        · exact hmem x (Or.inr (List.mem_cons_of_mem r h)))]
      simp

/-- The round-trip law of the batch codec, in its auxiliary form. -/
theorem decode_encode_aux (ser : WireRecord → List Nat)
    (deser : List Nat → Option WireRecord)
    (compress decompress : List Nat → List Nat) (bound : Nat)
    (rs : List WireRecord)
    (hcd : ∀ b, decompress (compress b) = b)
    (hrec : ∀ r ∈ rs, deser (ser r) = some r ∧ (ser r).length < 18446744073709551616) :
    decode deser decompress (encode ser compress bound rs) = some rs := by
  have h := decode_encodeGo_aux ser deser compress decompress bound hcd rs []
    (fun r hr => by
      rcases hr with h | h
      · exact absurd h (List.not_mem_nil r)
      · exact hrec r h)
  simpa [encode, serStream] using h

/-! ## Conversion lemmas -/

/-- The timestamp conversion succeeds exactly on times representable as
non-negative `i64` nanoseconds, and then returns the time itself. -/
theorem nanos_spec (t : Int) :
    nanos t = if 0 ≤ t ∧ t < 9223372036854775808 then some t else none := by
  unfold nanos nanosU64 i64TryFromNat
  by_cases h1 : 0 ≤ t ∧ t < 18446744073709551616
  · rw [if_pos h1, Option.some_bind]
    by_cases h2 : t.toNat < 9223372036854775808
    · rw [if_pos h2, if_pos ⟨h1.1, by omega⟩]
      simp [Int.toNat_of_nonneg h1.1]
    · rw [if_neg h2, if_neg (by omega)]
  · rw [if_neg h1, Option.none_bind, if_neg (by omega)]

/-! ## Pipeline lemmas -/

/-- If the batch loop finished successfully, it sent every batch and emitted
one digest receipt per batch, in order. -/
theorem sendLoop_ok_state (sendOk replyOk : Nat → Bool) :
    ∀ (bs : List (List Nat)) (n : Nat) (st : SessionState),
    (sendLoop sendOk replyOk bs n st).1 = .ok () →
    (sendLoop sendOk replyOk bs n st).2
      = ⟨st.sent ++ bs, st.replies ++ bs.map (fun b => ⟨sha256 b⟩)⟩ := by
  intro bs
  induction bs with
  | nil =>
    intro n st _
    cases st
    simp [sendLoop]
  | cons b bs ih =>
    intro n st hok
    by_cases hs : sendOk n = true
    · by_cases hr : replyOk n = true
      · simp only [sendLoop, hs, hr, if_pos] at hok ⊢
        rw [ih _ _ hok]
        simp
      · simp [sendLoop, hs, hr] at hok
    · simp [sendLoop, hs] at hok

/-- With a transport that never fails, the batch loop succeeds and sends
every batch with one digest receipt per batch, in order. -/
theorem sendLoop_allOk :
    ∀ (bs : List (List Nat)) (n : Nat) (st : SessionState),
    sendLoop (fun _ => true) (fun _ => true) bs n st
      = (.ok (), ⟨st.sent ++ bs, st.replies ++ bs.map (fun b => ⟨sha256 b⟩)⟩) := by
  intro bs
  induction bs with
  | nil =>
    intro n st
    cases st
    simp [sendLoop]
  | cons b bs ih =>
    intro n st
    simp only [sendLoop, if_pos]
    rw [ih]
    simp

/-- If the n-th sink send fails after n fully successful iterations, the
batch loop aborts with the send error having sent and acknowledged exactly
the first n batches. -/
theorem sendLoop_send_fail (sendOk replyOk : Nat → Bool) :
    ∀ (bs : List (List Nat)) (n k : Nat) (st : SessionState),
    n < bs.length →
    (∀ m, m < n → sendOk (k + m) = true ∧ replyOk (k + m) = true) →
    sendOk (k + n) = false →
    sendLoop sendOk replyOk bs k st
      = (.error "send failed",
         ⟨st.sent ++ bs.take n, st.replies ++ (bs.take n).map (fun b => ⟨sha256 b⟩)⟩) := by
  intro bs
  induction bs with
  | nil =>
    intro n k st hn
    simp at hn
  | cons b bs ih =>
    intro n k st hn hpre hfail
    cases n with
    | zero =>
      have hf : sendOk k = false := by simpa using hfail
      cases st
      simp [sendLoop, hf]
    | succ m =>
      have h0 := hpre 0 (Nat.succ_pos m)
      simp only [Nat.add_zero] at h0
      simp only [sendLoop, h0.1, h0.2, if_true]
      rw [ih m (k + 1) _ (by simpa using hn)
        (fun j hj => by
          have hh := hpre (j + 1) (by omega)
          have he : k + (j + 1) = k + 1 + j := by omega
          rwa [he] at hh)
        (by
          have he : k + (m + 1) = k + 1 + m := by omega
          rwa [he] at hfail)]
      simp

/-- If the n-th sink send succeeds but the n-th reply fails, after n fully
successful iterations, the batch loop aborts with the reply error having
sent the first n+1 batches but acknowledged only the first n. -/
theorem sendLoop_reply_fail (sendOk replyOk : Nat → Bool) :
    ∀ (bs : List (List Nat)) (n k : Nat) (st : SessionState),
    n < bs.length →
    (∀ m, m < n → sendOk (k + m) = true ∧ replyOk (k + m) = true) →
    sendOk (k + n) = true → replyOk (k + n) = false →
    sendLoop sendOk replyOk bs k st
      = (.error "reply failed",
         ⟨st.sent ++ bs.take (n + 1),
          st.replies ++ (bs.take n).map (fun b => ⟨sha256 b⟩)⟩) := by
  intro bs
  induction bs with
  | nil =>
    intro n k st hn
    simp at hn
  | cons b bs ih =>
    intro n k st hn hpre hsend hreply
    cases n with
    | zero =>
      have hs : sendOk k = true := by simpa using hsend
      have hr : replyOk k = false := by simpa using hreply
      cases st
      simp [sendLoop, hs, hr]
    | succ m =>
      have h0 := hpre 0 (Nat.succ_pos m)
      simp only [Nat.add_zero] at h0
      simp only [sendLoop, h0.1, h0.2, if_true]
      rw [ih m (k + 1) _ (by simpa using hn)
        (fun j hj => by
          have hh := hpre (j + 1) (by omega)
          have he : k + (j + 1) = k + 1 + j := by omega
          rwa [he] at hh)
        (by
          have he : k + (m + 1) = k + 1 + m := by omega
          rwa [he] at hsend)
        (by
          have he : k + (m + 1) = k + 1 + m := by omega
          rwa [he] at hreply)]
      simp

/-- Through the batch loop, every emitted receipt carries the SHA-256 digest
of the corresponding sent blob: the receipts pair up, in order, with the
prefix of the sent blobs they acknowledge. -/
theorem sendLoop_digest_invariant (sendOk replyOk : Nat → Bool) :
    ∀ (bs : List (List Nat)) (n : Nat) (st : SessionState),
    st.replies.map Item.blob_sha256 = st.sent.map sha256 →
    (sendLoop sendOk replyOk bs n st).2.replies.map Item.blob_sha256
      = ((sendLoop sendOk replyOk bs n st).2.sent.take
          (sendLoop sendOk replyOk bs n st).2.replies.length).map sha256 := by
  intro bs
  induction bs with
  | nil =>
    intro n st hinv
    have hlen : st.replies.length = st.sent.length := by
      rw [← List.length_map st.replies Item.blob_sha256, hinv, List.length_map]
    simp only [sendLoop, hlen, List.take_length]
    exact hinv
  | cons b bs ih =>
    intro n st hinv
    have hlen : st.replies.length = st.sent.length := by
      rw [← List.length_map st.replies Item.blob_sha256, hinv, List.length_map]
    by_cases hs : sendOk n = true
    · by_cases hr : replyOk n = true
      · simp only [sendLoop, hs, hr, if_true]
        exact ih (n + 1) _ (by simp [hinv])
      · simp only [sendLoop, hs, hr, if_true, if_false, Bool.false_eq_true]
        simp only [hlen, List.take_append_eq_append_take, List.take_length,
          Nat.sub_self, List.take_zero, List.append_nil]
        exact hinv
    · simp only [sendLoop, hs, Bool.false_eq_true, if_false]
      simp only [hlen, List.take_length]
      exact hinv

/-- Auxiliary characterization of a timestamp field: the field is set exactly
when the accessor provided a time representable as non-negative `i64`
nanoseconds, and then it carries that value. -/
theorem bind_nanos_spec (o : Option Int) :
    ((o.bind nanos).isSome ↔ ∃ t, o = some t ∧ 0 ≤ t ∧ t < 9223372036854775808)
    ∧ (∀ t, o = some t → 0 ≤ t → t < 9223372036854775808 → o.bind nanos = some t) := by
  cases o with
  | none => simp
  | some t =>
    constructor
    · rw [Option.some_bind, nanos_spec]
      by_cases hP : 0 ≤ t ∧ t < 9223372036854775808
      · simp [hP]
      · simp only [if_neg hP, Option.isSome_none, Bool.false_eq_true, false_iff]
        rintro ⟨t2, heq, h1, h2⟩
        rw [Option.some.injEq] at heq
        subst heq
        exact hP ⟨h1, h2⟩
    · intro t2 heq h1 h2
      rw [Option.some.injEq] at heq
      subst heq
      rw [Option.some_bind, nanos_spec, if_pos ⟨h1, h2⟩]

/-! ## Claims -/

/-- C1: Round-trip law: for every finite sequence of wire records and every
positive size bound, decoding the batches produced by `encode` yields exactly
the original records, in order, with no loss, reordering or duplication —
for any correct compression scheme and any record deserializer inverting the
record serializer whose output fits the 64-bit length header. -/
theorem encode_decode_roundtrip (ser : WireRecord → List Nat)
    (deser : List Nat → Option WireRecord)
    (compress decompress : List Nat → List Nat) (bound : Nat)
    (rs : List WireRecord)
    (_hbound : 0 < bound)
    (hcd : ∀ b, decompress (compress b) = b)
    (hrec : ∀ r ∈ rs, deser (ser r) = some r ∧ (ser r).length < 18446744073709551616) :
    decode deser decompress (encode ser compress bound rs) = some rs :=
  decode_encode_aux ser deser compress decompress bound rs hcd hrec

/-- Witness for C1 at a concrete two-record sequence and bound 3. -/
theorem encode_decode_roundtrip_witness :
    decode decK id (encode encK id 3 [wrA, wrB]) = some [wrA, wrB] :=
  encode_decode_roundtrip encK decK id id 3 [wrA, wrB] (by decide)
    (fun _ => rfl) (by decide)

/-- C2: On every successful run, `handle` hands every batch to the sink and
emits exactly one receipt per batch through the reply channel, in batch
order: the receipt sequence is the digest image of the batch sequence. -/
theorem handle_one_receipt_per_batch (ser : WireRecord → List Nat)
    (compress : List Nat → List Nat) (bound : Nat) (sendOk replyOk : Nat → Bool)
    (results : List (Except String Entry))
    (hok : (handle ser compress bound sendOk replyOk (.ok results)).1 = .ok ()) :
    (handle ser compress bound sendOk replyOk (.ok results)).2.sent
        = batchesOf ser compress bound results
    ∧ (handle ser compress bound sendOk replyOk (.ok results)).2.replies.map
          Item.blob_sha256
        = (batchesOf ser compress bound results).map sha256 := by
  simp only [handle] at hok ⊢
  simp only [batchesOf]
  rw [sendLoop_ok_state _ _ _ _ _ hok]
  simp

/-- Witness for C2 at a one-entry walk with an always-successful transport. -/
theorem handle_one_receipt_per_batch_witness :
    (handle encK id 1 (fun _ => true) (fun _ => true) (.ok [.ok entA])).2.sent
        = batchesOf encK id 1 [.ok entA]
    ∧ (handle encK id 1 (fun _ => true) (fun _ => true) (.ok [.ok entA])).2.replies.map
          Item.blob_sha256
        = (batchesOf encK id 1 [.ok entA]).map sha256 :=
  handle_one_receipt_per_batch encK id 1 (fun _ => true) (fun _ => true)
    [.ok entA] rfl

/-- C3: A failed directory entry does not abort the pipeline: with a walk
containing failed entries, the failed entries are dropped, `handle` still
returns success, and decoding what was handed to the sink recovers exactly
the wire records of all readable entries, in order. -/
theorem handle_entry_failure_isolated (ser : WireRecord → List Nat)
    (deser : List Nat → Option WireRecord)
    (compress decompress : List Nat → List Nat) (bound : Nat)
    (results : List (Except String Entry))
    (_hfail : ∃ msg, Except.error msg ∈ results)
    (hcd : ∀ b, decompress (compress b) = b)
    (hrec : ∀ r ∈ (keepOk results).map from_lossy,
      deser (ser r) = some r ∧ (ser r).length < 18446744073709551616) :
    (handle ser compress bound (fun _ => true) (fun _ => true) (.ok results)).1 = .ok ()
    ∧ decode deser decompress
        (handle ser compress bound (fun _ => true) (fun _ => true) (.ok results)).2.sent
      = some ((keepOk results).map from_lossy) := by
  simp only [handle]
  rw [sendLoop_allOk]
  refine ⟨rfl, ?_⟩
  simp only [List.nil_append]
  exact decode_encode_aux ser deser compress decompress bound
    ((keepOk results).map from_lossy) hcd hrec

/-- Witness for C3: a walk with one unreadable entry between two readable
ones. -/
theorem handle_entry_failure_isolated_witness :
    (handle encK id 1 (fun _ => true) (fun _ => true)
        (.ok [.ok entA, .error "denied", .ok entB])).1 = .ok ()
    ∧ decode decK id
        (handle encK id 1 (fun _ => true) (fun _ => true)
          (.ok [.ok entA, .error "denied", .ok entB])).2.sent
      = some ((keepOk [.ok entA, .error "denied", .ok entB]).map from_lossy) :=
  handle_entry_failure_isolated encK decK id id 1
    [.ok entA, .error "denied", .ok entB]
    ⟨"denied", by simp⟩ (fun _ => rfl) (by decide)

/-- C4: A root-level walk error is fatal before any output: `handle` returns
the error, nothing is handed to the sink and no receipt is emitted. -/
theorem handle_root_error_aborts (ser : WireRecord → List Nat)
    (compress : List Nat → List Nat) (bound : Nat) (sendOk replyOk : Nat → Bool)
    (msg : String) :
    handle ser compress bound sendOk replyOk (.error msg)
      = (.error msg, ⟨[], []⟩) := rfl

/-- C5: A transport failure aborts the pipeline: if the n-th send fails, the
run ends with the send error having sent and acknowledged exactly the first
n batches; if the n-th send succeeds but its reply fails, the run ends with
the reply error having sent n+1 batches and acknowledged only n.  No later
batch is sent, no later receipt is emitted, and no success is reported. -/
theorem handle_transport_failure_aborts (ser : WireRecord → List Nat)
    (compress : List Nat → List Nat) (bound : Nat) (sendOk replyOk : Nat → Bool)
    (results : List (Except String Entry)) (n : Nat)
    (hn : n < (batchesOf ser compress bound results).length)
    (hpre : ∀ m, m < n → sendOk m = true ∧ replyOk m = true) :
    (sendOk n = false →
      handle ser compress bound sendOk replyOk (.ok results)
        = (.error "send failed",
           ⟨(batchesOf ser compress bound results).take n,
            ((batchesOf ser compress bound results).take n).map
              (fun b => ⟨sha256 b⟩)⟩))
    ∧ (sendOk n = true → replyOk n = false →
      handle ser compress bound sendOk replyOk (.ok results)
        = (.error "reply failed",
           ⟨(batchesOf ser compress bound results).take (n + 1),
            ((batchesOf ser compress bound results).take n).map
              (fun b => ⟨sha256 b⟩)⟩)) := by
  simp only [batchesOf] at hn ⊢
  constructor
  · intro hsf
    simp only [handle]
    rw [sendLoop_send_fail sendOk replyOk _ n 0 ⟨[], []⟩ hn
      (fun m hm => by simpa using hpre m hm) (by simpa using hsf)]
    simp
  · intro hst hrf
    simp only [handle]
    rw [sendLoop_reply_fail sendOk replyOk _ n 0 ⟨[], []⟩ hn
      (fun m hm => by simpa using hpre m hm) (by simpa using hst)
      (by simpa using hrf)]
    simp

/-- Witness for C5: the very first send fails, so nothing is sent and
nothing is acknowledged. -/
theorem handle_transport_failure_aborts_witness :
    handle encK id 1 (fun _ => false) (fun _ => true) (.ok [.ok entA])
      = (.error "send failed", ⟨[], []⟩) := by
  have h := (handle_transport_failure_aborts encK id 1 (fun _ => false)
    (fun _ => true) [.ok entA] 0 (by decide)
    (fun m hm => absurd hm (Nat.not_lt_zero m))).1 rfl
  simpa using h

/-- C6: Content addressing: every receipt emitted by `handle` carries the
SHA-256 digest of exactly the blob bytes handed to the sink for its batch
(the post-compression wire bytes), in order; the digest of any byte sequence
is a fixed 32-byte (256-bit) value; and hashing equal byte sequences yields
equal digests. -/
theorem handle_digest_contract (ser : WireRecord → List Nat)
    (compress : List Nat → List Nat) (bound : Nat) (sendOk replyOk : Nat → Bool)
    (walk : Except String (List (Except String Entry))) :
    ((handle ser compress bound sendOk replyOk walk).2.replies.map Item.blob_sha256
      = (((handle ser compress bound sendOk replyOk walk).2.sent.take
           (handle ser compress bound sendOk replyOk walk).2.replies.length).map
          sha256))
    ∧ (∀ b : List Nat, (sha256 b).length = 32)
    ∧ (∀ b c : List Nat, b = c → sha256 b = sha256 c) := by
  refine ⟨?_, fun b => sha256_length b, fun b c h => by rw [h]⟩
  cases walk with
  | error msg => rfl
  | ok results =>
    simp only [handle]
    exact sendLoop_digest_invariant sendOk replyOk _ 0 ⟨[], []⟩ rfl

/-- Witness for C6 at a concrete one-entry run and concrete byte
sequences. -/
theorem handle_digest_contract_witness :
    ((handle encK id 1 (fun _ => true) (fun _ => true)
        (.ok [.ok entA])).2.replies.map Item.blob_sha256
      = (((handle encK id 1 (fun _ => true) (fun _ => true)
            (.ok [.ok entA])).2.sent.take
           (handle encK id 1 (fun _ => true) (fun _ => true)
             (.ok [.ok entA])).2.replies.length).map sha256))
    ∧ (sha256 [1, 2, 3]).length = 32
    ∧ sha256 [7] = sha256 [7] :=
  ⟨(handle_digest_contract encK id 1 (fun _ => true) (fun _ => true)
      (.ok [.ok entA])).1,
   (handle_digest_contract encK id 1 (fun _ => true) (fun _ => true)
      (.ok [.ok entA])).2.1 [1, 2, 3],
   (handle_digest_contract encK id 1 (fun _ => true) (fun _ => true)
      (.ok [.ok entA])).2.2 [7] [7] rfl⟩

/-- C7: The entry-to-record conversion is total and fails soft per
timestamp: each of the access, modification and creation timestamp fields is
set if and only if the platform provided that time and it is representable
as non-negative `i64` nanoseconds since the epoch, in which case it carries
exactly that value; an unavailable or unrepresentable timestamp only omits
that field, while the record itself — with its always-present path and size
— is still produced. -/
theorem from_lossy_timestamp_fields (e : Entry) :
    ((from_lossy e).atime_ns.isSome ↔
      ∃ t, e.metadata.accessed = some t ∧ 0 ≤ t ∧ t < 9223372036854775808)
    ∧ (∀ t, e.metadata.accessed = some t → 0 ≤ t → t < 9223372036854775808 →
        (from_lossy e).atime_ns = some t)
    ∧ ((from_lossy e).mtime_ns.isSome ↔
      ∃ t, e.metadata.modified = some t ∧ 0 ≤ t ∧ t < 9223372036854775808)
    ∧ (∀ t, e.metadata.modified = some t → 0 ≤ t → t < 9223372036854775808 →
        (from_lossy e).mtime_ns = some t)
    ∧ ((from_lossy e).btime_ns.isSome ↔
      ∃ t, e.metadata.created = some t ∧ 0 ≤ t ∧ t < 9223372036854775808)
    ∧ (∀ t, e.metadata.created = some t → 0 ≤ t → t < 9223372036854775808 →
        (from_lossy e).btime_ns = some t)
    ∧ (from_lossy e).path = e.path
    ∧ (from_lossy e).size = e.metadata.len :=
  ⟨(bind_nanos_spec e.metadata.accessed).1,
   (bind_nanos_spec e.metadata.accessed).2,
   (bind_nanos_spec e.metadata.modified).1,
   (bind_nanos_spec e.metadata.modified).2,
   (bind_nanos_spec e.metadata.created).1,
   (bind_nanos_spec e.metadata.created).2,
   rfl, rfl⟩

/-- Witness for C7: the sample entry's access time is representable and is
carried through; its modification time is unavailable and the field is
omitted. -/
theorem from_lossy_timestamp_fields_witness :
    (from_lossy entA).atime_ns = some 5
    ∧ ((from_lossy entA).mtime_ns.isSome ↔
      ∃ t, entA.metadata.modified = some t ∧ 0 ≤ t ∧ t < 9223372036854775808) :=
  ⟨(from_lossy_timestamp_fields entA).2.1 5 rfl (by decide) (by decide),
   (from_lossy_timestamp_fields entA).2.2.1⟩

/-- C8: Divergence of the change-time field: for the entry whose change time
is 5 seconds and 7 nanoseconds past the epoch, the conversion stores only
the sub-second nanosecond component (7) in `ctime_ns`, although the change
time expressed under the nanoseconds-since-epoch contract governing the
other timestamp fields is 5000000007 and is representable. -/
theorem from_lossy_ctime_divergence :
    (from_lossy entCtime).ctime_ns = some 7
    ∧ nanos (entCtime.metadata.ctime * 1000000000 + entCtime.metadata.ctime_nsec)
        = some 5000000007
    ∧ (from_lossy entCtime).ctime_ns ≠ some 5000000007 := by
  refine ⟨rfl, ?_, by decide⟩
  rw [nanos_spec]
  rfl

/-- C9: Empty input: encoding no records yields no batches, decoding no
batches yields no records, and a run over an empty directory succeeds while
sending nothing to the sink and emitting no receipt. -/
theorem empty_input_behavior (ser : WireRecord → List Nat)
    (deser : List Nat → Option WireRecord)
    (compress decompress : List Nat → List Nat) (bound : Nat)
    (sendOk replyOk : Nat → Bool) :
    encode ser compress bound [] = []
    ∧ decode deser decompress [] = some []
    ∧ handle ser compress bound sendOk replyOk (.ok []) = (.ok (), ⟨[], []⟩) :=
  ⟨rfl, rfl, rfl⟩

/-- C10: Unix metadata fields: the conversion always sets `mode` (widened
infallibly) and `ino` (copied), while `dev`, `uid` and `gid` are set exactly
when the metadata value fits in a signed 64-bit integer, carried over
unchanged when they fit and silently omitted — never truncated — when they
do not, without failing the conversion. -/
theorem from_lossy_unix_fields (e : Entry) :
    (from_lossy e).mode = some (Int.ofNat e.metadata.mode)
    ∧ (from_lossy e).ino = some e.metadata.ino
    ∧ ((from_lossy e).dev.isSome ↔ e.metadata.dev < 9223372036854775808)
    ∧ (e.metadata.dev < 9223372036854775808 →
        (from_lossy e).dev = some (Int.ofNat e.metadata.dev))
    ∧ (9223372036854775808 ≤ e.metadata.dev → (from_lossy e).dev = none)
    ∧ ((from_lossy e).uid.isSome ↔ e.metadata.uid < 9223372036854775808)
    ∧ (e.metadata.uid < 9223372036854775808 →
        (from_lossy e).uid = some (Int.ofNat e.metadata.uid))
    ∧ (9223372036854775808 ≤ e.metadata.uid → (from_lossy e).uid = none)
    ∧ ((from_lossy e).gid.isSome ↔ e.metadata.gid < 9223372036854775808)
    ∧ (e.metadata.gid < 9223372036854775808 →
        (from_lossy e).gid = some (Int.ofNat e.metadata.gid))
    ∧ (9223372036854775808 ≤ e.metadata.gid → (from_lossy e).gid = none) := by
  unfold from_lossy i64TryFromNat
  refine ⟨rfl, rfl, ?_, ?_, ?_, ?_, ?_, ?_, ?_, ?_, ?_⟩ <;> split_ifs <;> simp_all

/-- Witness for C10: an oversized device number is omitted while the small
user identifier is carried over. -/
theorem from_lossy_unix_fields_witness :
    (from_lossy entBig).dev = none
    ∧ (from_lossy entBig).uid = some (Int.ofNat entBig.metadata.uid) :=
  ⟨(from_lossy_unix_fields entBig).2.2.2.2.1 (by decide),
   (from_lossy_unix_fields entBig).2.2.2.2.2.2.1 (by decide)⟩
